import Mathlib

/-!
Verification development for the fivem-glsl blur overlay (src/index.ts).

The embedding models:
 - the decimal fragment of the JS numeric parsing builtins used by the code
   (Number(s) and parseFloat(s)); none stands for NaN;
 - the element-tracking subsystem: processElement, removeElement,
   processAllElements and the MutationObserver callback, acting on an explicit
   document state (a list of elements with class lists and the
   data-blurStrength attribute) plus the trackedElements set (a duplicate-free
   list of element ids in insertion order);
 - the per-frame geometry of render (scaled and padded boxes, the shape
   uniform, the blur-strength read-back);
 - the fragment-shader kernel over the reals.
-/

namespace FivemGlsl

/-! ## JS numeric parsing (decimal fragment)

Models the decimal-literal fragment of the JavaScript builtins Number and
parseFloat: an optional sign followed by digits with an optional fractional
part.  Exponents, hexadecimal literals and Infinity are outside the fragment;
none of the strings this repository feeds to these builtins (class-name
suffixes and computed border-radius values) uses them.  none models NaN. -/

/-- Numeric value of a list of decimal digit characters, most significant
first (the empty list has value 0, as in JS where the digits come split
around a decimal point). -/
def digitsToNat (l : List Char) : ℕ :=
  l.foldl (fun a c => 10 * a + (c.toNat - 48)) 0

/-- Whitespace test used by the JS trimming steps. -/
def isWsCh (c : Char) : Bool := c.isWhitespace

/-- Parse a maximal unsigned decimal mantissa prefix: digits, optionally a
point and more digits.  Returns the value and the unconsumed rest; none when
no digit is present before or after the point. -/
def parseMantissa (l : List Char) : Option (ℚ × List Char) :=
  let ip := l.takeWhile Char.isDigit
  let r1 := l.dropWhile Char.isDigit
  match r1 with
  | '.' :: r2 =>
      let fp := r2.takeWhile Char.isDigit
      let r3 := r2.dropWhile Char.isDigit
      if ip = [] ∧ fp = [] then none
      else some ((digitsToNat ip : ℚ) + (digitsToNat fp : ℚ) / (10 : ℚ) ^ fp.length, r3)
  | _ => if ip = [] then none else some ((digitsToNat ip : ℚ), r1)

/-- Parse a maximal signed decimal prefix. -/
def parseSigned (l : List Char) : Option (ℚ × List Char) :=
  match l with
  | '-' :: r => (parseMantissa r).map (fun p => (-p.1, p.2))
  | '+' :: r => parseMantissa r
  | _ => parseMantissa l

/-- JS parseFloat on the decimal fragment: skip leading whitespace, parse a
maximal signed decimal prefix, ignore the rest; none models NaN. -/
def jsParseFloat (s : String) : Option ℚ :=
  (parseSigned (s.toList.dropWhile isWsCh)).map Prod.fst

/-- Whitespace-trimmed character list of a string (JS String.prototype.trim). -/
def jsTrim (s : String) : List Char :=
  ((s.toList.dropWhile isWsCh).reverse.dropWhile isWsCh).reverse

/-- JS Number(s) on the decimal fragment: the whole trimmed string must be a
signed decimal literal; the empty trimmed string converts to 0; none models
NaN. -/
def jsNumber (s : String) : Option ℚ :=
  let t := jsTrim s
  if t = [] then some 0
  else
    match parseSigned t with
    | some (q, []) => some q
    | _ => none

/-- Prefix test on character lists (auxiliary for the substring test). -/
def listHasPre : List Char → List Char → Bool
  | [], _ => true
  | _ :: _, [] => false
  | a :: as, b :: bs => a == b && listHasPre as bs

/-- Substring test on character lists (auxiliary for jsIncludes). -/
def hasSub (needle : List Char) : List Char → Bool
  | [] => listHasPre needle []
  | c :: rest => listHasPre needle (c :: rest) || hasSub needle rest

/-- JS String.prototype.includes: pat occurs as a contiguous substring of
hay. -/
def jsIncludes (hay pat : String) : Bool :=
  hasSub pat.toList hay.toList

/-- JS String.prototype.startsWith, character-wise. -/
def jsStartsWith (s p : String) : Bool :=
  listHasPre p.toList s.toList

/-- Drop the first n characters of a string (the effect of the JS replace of
a first-occurrence prefix match by the empty string). -/
def strDrop (s : String) (n : ℕ) : String :=
  String.mk (s.toList.drop n)

/-- Membership of a single character in a string (JS includes on a
one-character needle, used for the percent test on border-radius). -/
def strContainsChar (s : String) (c : Char) : Bool :=
  s.toList.contains c

/-! ## Configuration constants (src/index.ts lines 1-13) -/

/-- Mirrors the Config interface of src/index.ts (the render colour is the
fully transparent clear colour). -/
structure Config where
  resolutionScale : ℚ
  defaultBlurStrength : ℚ
  renderColour : ℚ × ℚ × ℚ × ℚ
  maxBlurSize : ℕ

/-- The config constant of src/index.ts. -/
def config : Config :=
  { resolutionScale := 1 / 2
    defaultBlurStrength := 1
    renderColour := (0, 0, 0, 0)
    maxBlurSize := 20 }

/-! ## Document and tracking state -/

/-- A DOM element as the tracking subsystem sees it: an identity, its class
list (in class-attribute order) and the data-blurStrength attribute.  The
attribute is modelled by its numeric content: the code only ever writes
n.toString() of a number n, and parseFloat reads that string back to exactly
n, so the string layer is invertible on everything this code stores; none is
an absent attribute. -/
structure Elem where
  eid : ℕ
  classes : List String
  blurStrength : Option ℚ
deriving DecidableEq

/-- The mutable state of the tracking subsystem: the document's elements and
the trackedElements set, kept as a duplicate-free list of element ids in
insertion order (a JS Set iterates in insertion order). -/
structure DocSt where
  doc : List Elem
  tracked : List ℕ
deriving DecidableEq

/-- Look an element up by identity. -/
def findElem (st : DocSt) (i : ℕ) : Option Elem :=
  st.doc.find? (fun e => e.eid == i)

/-- Class list of element i (empty when absent). -/
def classesAt (st : DocSt) (i : ℕ) : List String :=
  ((findElem st i).map Elem.classes).getD []

/-- The data-blurStrength attribute of element i. -/
def attrAt (st : DocSt) (i : ℕ) : Option ℚ :=
  (findElem st i).bind Elem.blurStrength

/-- Apply f to the element(s) with identity i. -/
def updateElem (st : DocSt) (i : ℕ) (f : Elem → Elem) : DocSt :=
  { st with doc := st.doc.map (fun e => if e.eid == i then f e else e) }

/-- DOMTokenList.add: append the token unless already present. -/
def classListAdd (cs : List String) (c : String) : List String :=
  if c ∈ cs then cs else cs ++ [c]

/-- element.classList.add(c) on element i. -/
def addClassOp (st : DocSt) (i : ℕ) (c : String) : DocSt :=
  updateElem st i (fun e => { e with classes := classListAdd e.classes c })

/-- element.dataset.blurStrength = q on element i. -/
def setAttrOp (st : DocSt) (i : ℕ) (q : ℚ) : DocSt :=
  updateElem st i (fun e => { e with blurStrength := some q })

/-- delete element.dataset.blurStrength on element i. -/
def clearAttrOp (st : DocSt) (i : ℕ) : DocSt :=
  updateElem st i (fun e => { e with blurStrength := none })

/-- The strength computation inside processElement (src/index.ts lines
310-318): the first class token starting with "blured-" is found; since the
token starts with that prefix, the JS replace of its first occurrence by the
empty string is exactly dropping the 7-character prefix; the suffix is used
via parseFloat when Number accepts it and its trim is nonempty, else the
default applies. -/
def computeStrength (classes : List String) : ℚ :=
  match classes.find? (fun c => jsStartsWith c "blured-") with
  | none => config.defaultBlurStrength
  | some cls =>
      let extractedValue := strDrop cls 7
      if (jsNumber extractedValue).isSome && !(jsTrim extractedValue).isEmpty then
        (jsParseFloat extractedValue).getD config.defaultBlurStrength
      else config.defaultBlurStrength

/-- processElement (src/index.ts lines 306-322): no-op when tracked;
otherwise add the class "relative", derive the strength from the (updated)
class list, store it in data-blurStrength, and insert into trackedElements. -/
def processElement (st : DocSt) (i : ℕ) : DocSt :=
  if i ∈ st.tracked then st
  else
    let st1 := addClassOp st i "relative"
    let strength := computeStrength (classesAt st1 i)
    let st2 := setAttrOp st1 i strength
    { st2 with tracked := st2.tracked ++ [i] }

/-- removeElement (src/index.ts lines 324-331): when tracked, remove from the
set, delete the attribute and return true; otherwise return false and change
nothing. -/
def removeElement (st : DocSt) (i : ℕ) : DocSt × Bool :=
  if i ∈ st.tracked then
    ({ clearAttrOp st i with tracked := st.tracked.erase i }, true)
  else (st, false)

/-- Does some class token of element i contain "blured" as a substring
(Array.from(element.classList).some(c =... c.includes('blured'))). -/
def hasBluredTok (cs : List String) : Bool :=
  cs.any (fun c => jsIncludes c "blured")

/-- The CSS selector [class*="blured"]: the class attribute contains
"blured" as a substring.  Since "blured" contains no whitespace and the class
attribute is the whitespace-separated join of the tokens, this holds exactly
when some class token contains "blured" as a substring, which is how it is
stated here. -/
def selMatches (e : Elem) : Bool :=
  hasBluredTok e.classes

/-- processAllElements (src/index.ts lines 333-363): query the qualifying
elements of the document first; sweep the tracked set, removing every element
with no class token containing "blured"; then processElement every queried
element (the gameView branching only affects rendering resources, not the
document or tracked state). -/
def processAllElements (st : DocSt) : DocSt :=
  let glass := (st.doc.filter selMatches).map Elem.eid
  let st1 := st.tracked.foldl
    (fun s i => if hasBluredTok (classesAt s i) then s else (removeElement s i).1) st
  glass.foldl processElement st1

/-- The sweep step of processAllElements, named for the proofs: keep a
tracked element when some class token contains "blured", remove it
otherwise. -/
def sweepStep (s : DocSt) (j : ℕ) : DocSt :=
  if hasBluredTok (classesAt s j) then s else (removeElement s j).1

/-- An added node of a mutation record, together with the descendant ids its
subtree query can see (the DOM-tree data the flat document model does not
carry). -/
structure AddedNode where
  nid : ℕ
  descendants : List ℕ
deriving DecidableEq

/-- One MutationRecord, reduced to what the callback inspects: the added
element nodes, and the target of a class-attribute mutation when the record
is one (none for records of other kinds). -/
structure MutRec where
  added : List AddedNode
  attrClassTarget : Option ℕ
deriving DecidableEq

/-- Processing of one mutation record in the observer callback
(src/index.ts lines 370-395): each added node is processed when some of its
class tokens contains "blured", then its qualifying descendants are
processed; a class-attribute mutation target is processed when it now has a
qualifying token. -/
def processMutation (s : DocSt) (m : MutRec) : DocSt :=
  let s1 := m.added.foldl
    (fun s a =>
      let su := if hasBluredTok (classesAt s a.nid) then processElement s a.nid else s
      let children := a.descendants.filter (fun d => hasBluredTok (classesAt su d))
      children.foldl processElement su) s
  match m.attrClassTarget with
  | some t => if hasBluredTok (classesAt s1 t) then processElement s1 t else s1
  | none => s1

/-- The MutationObserver callback (src/index.ts lines 367-400): fold the
record processing over the batch (the hasNewBlurElements flag only triggers
the push to the render pipeline, which does not touch the tracked state). -/
def observerCallback (st : DocSt) (muts : List MutRec) : DocSt :=
  muts.foldl processMutation st

/-- The spec's qualifying-marker predicate (section 4.1): the class list
contains the base token "blured" or a token of the form "blured-" followed by
a suffix.  This is the spec-side definition, stated for comparison with the
code's substring-based tests. -/
def specQualifies (cs : List String) : Bool :=
  cs.any (fun c => c == "blured" || jsStartsWith c "blured-")

/-! ## Per-frame render geometry (src/index.ts lines 222-254) -/

/-- The 1-pixel guard band added around each scaled box. -/
def buffer : ℤ := 1

/-- scaledLeft of render: floor of the canvas-relative left times the
resolution scale, minus the guard band. -/
def scaledLeft (rectLeft canvasLeft scale : ℚ) : ℤ :=
  ⌊(rectLeft - canvasLeft) * scale⌋ - buffer

/-- scaledTop of render. -/
def scaledTop (rectTop canvasTop scale : ℚ) : ℤ :=
  ⌊(rectTop - canvasTop) * scale⌋ - buffer

/-- scaledWidth of render: ceiling of the width times the scale, plus a guard
band on each side. -/
def scaledWidth (w scale : ℚ) : ℤ :=
  ⌈w * scale⌉ + buffer * 2

/-- scaledHeight of render. -/
def scaledHeight (h scale : ℚ) : ℤ :=
  ⌈h * scale⌉ + buffer * 2

/-- The circle test of render (src/index.ts lines 241-242): the computed
border-radius string contains a percent sign and parseFloat of it is at least
50 (a NaN comparison is false, hence the none branch). -/
def isCircle (borderRadiusStr : String) : Bool :=
  strContainsChar borderRadiusStr '%' &&
    (match jsParseFloat borderRadiusStr with
     | some q => decide (50 ≤ q)
     | none => false)

/-- The u_shape uniform of render (src/index.ts lines 246-248): center, then
half-width (the same expression in both branches of the source's ternary),
then 0 for a circle and the half-height otherwise. -/
def shapeUniform (borderRadiusStr : String) (cx cy sw sh : ℚ) : ℚ × ℚ × ℚ × ℚ :=
  (cx, cy,
   if isCircle borderRadiusStr then sw / 2 else sw / 2,
   if isCircle borderRadiusStr then 0 else sh / 2)

/-- The u_borderRadius uniform (src/index.ts line 249): parseFloat of the
computed border-radius times the resolution scale; none models the NaN
uniform produced when the style string does not parse. -/
def borderRadiusUniform (borderRadiusStr : String) (scale : ℚ) : Option ℚ :=
  (jsParseFloat borderRadiusStr).map (fun q => q * scale)

/-- The blur-strength read-back of render (src/index.ts line 244) at the
string level: parseFloat(attr || defaultStr) with defaultStr the empty
string, then the falsy-or with the default strength (NaN and 0 are falsy).
A missing attribute and an empty attribute string both feed the empty string
to parseFloat. -/
def renderBlurStrengthStr (attr : Option String) : ℚ :=
  match jsParseFloat (attr.getD "") with
  | none => config.defaultBlurStrength
  | some q => if q = 0 then config.defaultBlurStrength else q

/-- The blur-strength read-back on the attribute's numeric content (the
abstraction the element model stores, see Elem): a missing attribute parses
to NaN and falls to the default, a stored 0 is falsy and falls to the
default, any other stored number is passed through. -/
def renderBlurStrength (attr : Option ℚ) : ℚ :=
  match attr with
  | none => config.defaultBlurStrength
  | some q => if q = 0 then config.defaultBlurStrength else q

/-- The strength the kernel receives for element i at a frame. -/
def frameStrengthAt (st : DocSt) (i : ℕ) : ℚ :=
  renderBlurStrength (attrAt st i)

/-! ## The fragment-shader kernel (src/index.ts lines 15-60), over the reals -/

/-- The gaussian helper of the fragment shader: exp of minus x squared over
two sigma squared, divided by sqrt of two times 3.14159 (the shader's pi
literal) times sigma. -/
noncomputable def gaussian (x sigma : ℝ) : ℝ :=
  Real.exp (-(x * x) / (2 * sigma * sigma)) / (Real.sqrt (2 * 3.14159) * sigma)

/-- The roundedBoxSDF helper of the fragment shader, written out
componentwise: length of the componentwise max of abs(centerPosition) - size
+ radius with 0, minus radius. -/
noncomputable def roundedBoxSDF (cpx cpy sizex sizey radius : ℝ) : ℝ :=
  Real.sqrt (max (|cpx| - sizex + radius) 0 ^ 2 + max (|cpy| - sizey + radius) 0 ^ 2)
    - radius

/-- The signed distance computed by main: circle distance when the shape's w
component is 0 (w doubles as the discriminator), rounded-box SDF otherwise. -/
noncomputable def fragDistance (shape : ℝ × ℝ × ℝ × ℝ) (px py borderRadius : ℝ) : ℝ :=
  let cpx := px - shape.1
  let cpy := py - shape.2.1
  if shape.2.2.2 = 0 then Real.sqrt (cpx ^ 2 + cpy ^ 2) - shape.2.2.1
  else roundedBoxSDF cpx cpy shape.2.2.1 shape.2.2.2 borderRadius

open Classical in
/-- The integer sample offsets the kernel loop accumulates: x and y range
over -maxBlurSize .. maxBlurSize and the offset is skipped unless
x^2 + y^2 is at most strength^2. -/
noncomputable def blurOffsets (strength : ℝ) : Finset (ℤ × ℤ) :=
  ((Finset.Icc (-(config.maxBlurSize : ℤ)) (config.maxBlurSize : ℤ)) ×ˢ
    (Finset.Icc (-(config.maxBlurSize : ℤ)) (config.maxBlurSize : ℤ))).filter
    (fun p => ((p.1 * p.1 + p.2 * p.2 : ℤ) : ℝ) ≤ strength * strength)

/-- The weight of one sample: gaussian of the length of the
resolution-divided offset, with sigma = strength / 3. -/
noncomputable def sampleWeight (strength W H : ℝ) (p : ℤ × ℤ) : ℝ :=
  gaussian (Real.sqrt (((p.1 : ℝ) / W) ^ 2 + ((p.2 : ℝ) / H) ^ 2)) (strength / 3)

/-- The totalWeight accumulator of the kernel loop. -/
noncomputable def totalWeight (strength W H : ℝ) : ℝ :=
  ∑ p ∈ blurOffsets strength, sampleWeight strength W H p

/-- The kernel output for a source texture that returns the same colour c at
every sample (one colour channel): the weighted accumulation divided by the
total weight. -/
noncomputable def blurredConst (strength W H : ℝ) (c : Fin 4 → ℝ) : Fin 4 → ℝ :=
  fun ch => (∑ p ∈ blurOffsets strength, sampleWeight strength W H p * c ch)
    / totalWeight strength W H

open Classical in
/-- The whole of main on a uniform-colour source texture: discard (none) when
the signed distance is positive, the normalized blur accumulation otherwise. -/
noncomputable def fragMainConst (shape : ℝ × ℝ × ℝ × ℝ) (px py borderRadius W H strength : ℝ)
    (c : Fin 4 → ℝ) : Option (Fin 4 → ℝ) :=
  if fragDistance shape px py borderRadius > 0 then none
  else some (blurredConst strength W H c)

/-! ## Concrete document states used by counterexamples and witnesses -/

/-- One untracked element whose only class token contains "blured" as a
substring without being the base marker or a suffixed marker. -/
def c1St : DocSt :=
  { doc := [{ eid := 0, classes := ["xblured"], blurStrength := none }], tracked := [] }

/-- One already-tracked element whose recorded strength (2) predates its
current suffix class blured-7.5. -/
def c2St : DocSt :=
  { doc := [{ eid := 0, classes := ["blured-7.5"], blurStrength := some 2 }], tracked := [0] }

/-- One untracked element with a suffixed marker class. -/
def c6St : DocSt :=
  { doc := [{ eid := 0, classes := ["blured-2"], blurStrength := none }], tracked := [] }

/-- One tracked element that has lost every marker-family token but keeps a
token containing "blured" as a substring. -/
def c7St : DocSt :=
  { doc := [{ eid := 0, classes := ["xblured"], blurStrength := some 1 }], tracked := [0] }

/-- One untracked element classed blured-0. -/
def blured0St : DocSt :=
  { doc := [{ eid := 0, classes := ["blured-0"], blurStrength := none }], tracked := [] }

/-- An untracked element with a numeric suffix class, for the strength
recording witness. -/
def c2WitSt : DocSt :=
  { doc := [{ eid := 5, classes := ["blured-7.5"], blurStrength := none }], tracked := [] }

/-- An untracked element carrying no class related to the marker at all. -/
def c1WitSt : DocSt :=
  { doc := [{ eid := 3, classes := ["plain"], blurStrength := none }], tracked := [] }

/-- A tracked element stripped of every class containing "blured". -/
def c7WitSt : DocSt :=
  { doc := [{ eid := 4, classes := ["stripped"], blurStrength := some 2 }], tracked := [4] }

/-- A tracked element with the bare marker. -/
def c8WitSt : DocSt :=
  { doc := [{ eid := 6, classes := ["blured"], blurStrength := none }], tracked := [6] }

/-- An untracked element with a suffixed marker, for the frame-effect
witness. -/
def c9St : DocSt :=
  { doc := [{ eid := 7, classes := ["blured-3"], blurStrength := none }], tracked := [] }

/-- A small mutation batch: one added node with one descendant, and one
class-attribute mutation. -/
def demoMuts : List MutRec :=
  [{ added := [{ nid := 9, descendants := [3] }], attrClassTarget := some 3 }]

/-! ## Basic lemmas about the state operations -/

/-- No element of the document with identity i carries a class token
containing "blured" as a substring (the element "never carries the marker"
in the substring sense the code tests). -/
def noBluredAnywhere (st : DocSt) (i : ℕ) : Prop :=
  ∀ e ∈ st.doc, e.eid = i → hasBluredTok e.classes = false

instance decNoBluredAnywhere (st : DocSt) (i : ℕ) : Decidable (noBluredAnywhere st i) := by
  unfold noBluredAnywhere
  infer_instance

lemma findElem_eid {st : DocSt} {i : ℕ} {e : Elem} (he : findElem st i = some e) :
    e.eid = i := by
  have h := List.find?_some he
  simpa using h

lemma findElem_mem {st : DocSt} {i : ℕ} {e : Elem} (he : findElem st i = some e) :
    e ∈ st.doc :=
  List.mem_of_find?_eq_some he

lemma findElem_updateElem (st : DocSt) (j : ℕ) (f : Elem → Elem)
    (hf : ∀ e, (f e).eid = e.eid) (i : ℕ) :
    findElem (updateElem st j f) i
      = (findElem st i).map (fun e => if e.eid == j then f e else e) := by
  unfold findElem updateElem
  rw [List.find?_map]
  have hp : ((fun e : Elem => e.eid == i) ∘ fun e => if e.eid == j then f e else e)
      = (fun e : Elem => e.eid == i) := by
    funext e
    by_cases h : e.eid = j <;> simp [Function.comp, h, hf]
  rw [hp]

lemma findElem_updateElem_ne {st : DocSt} {j i : ℕ} {f : Elem → Elem}
    (hf : ∀ e, (f e).eid = e.eid) (hij : i ≠ j) :
    findElem (updateElem st j f) i = findElem st i := by
  rw [findElem_updateElem st j f hf i]
  cases h : findElem st i with
  | none => rfl
  | some e => simp [findElem_eid h, hij]

lemma findElem_updateElem_self {st : DocSt} {i : ℕ} {f : Elem → Elem}
    (hf : ∀ e, (f e).eid = e.eid) :
    findElem (updateElem st i f) i = (findElem st i).map f := by
  rw [findElem_updateElem st i f hf i]
  cases h : findElem st i with
  | none => rfl
  | some e => simp [findElem_eid h]

lemma tracked_updateElem (st : DocSt) (j : ℕ) (f : Elem → Elem) :
    (updateElem st j f).tracked = st.tracked := rfl

lemma attrAt_addClassOp (st : DocSt) (j : ℕ) (c : String) (i : ℕ) :
    attrAt (addClassOp st j c) i = attrAt st i := by
  unfold attrAt addClassOp
  rw [findElem_updateElem st j
    (fun e => { e with classes := classListAdd e.classes c }) (fun e => rfl) i]
  cases h : findElem st i with
  | none => rfl
  | some e =>
    simp only [Option.map_some']
    split <;> rfl

lemma classesAt_setAttrOp (st : DocSt) (j : ℕ) (q : ℚ) (i : ℕ) :
    classesAt (setAttrOp st j q) i = classesAt st i := by
  unfold classesAt setAttrOp
  rw [findElem_updateElem st j
    (fun e => { e with blurStrength := some q }) (fun e => rfl) i]
  cases h : findElem st i with
  | none => rfl
  | some e =>
    simp only [Option.map_some']
    split <;> rfl

lemma classesAt_clearAttrOp (st : DocSt) (j : ℕ) (i : ℕ) :
    classesAt (clearAttrOp st j) i = classesAt st i := by
  unfold classesAt clearAttrOp
  rw [findElem_updateElem st j
    (fun e => { e with blurStrength := none }) (fun e => rfl) i]
  cases h : findElem st i with
  | none => rfl
  | some e =>
    simp only [Option.map_some']
    split <;> rfl

lemma attrAt_setAttrOp_ne {st : DocSt} {j i : ℕ} {q : ℚ} (hij : i ≠ j) :
    attrAt (setAttrOp st j q) i = attrAt st i := by
  unfold attrAt setAttrOp
  rw [findElem_updateElem_ne (f := fun e => { e with blurStrength := some q }) (fun e => rfl) hij]

lemma attrAt_clearAttrOp_ne {st : DocSt} {j i : ℕ} (hij : i ≠ j) :
    attrAt (clearAttrOp st j) i = attrAt st i := by
  unfold attrAt clearAttrOp
  rw [findElem_updateElem_ne (f := fun e => { e with blurStrength := none }) (fun e => rfl) hij]

lemma attrAt_clearAttrOp_self (st : DocSt) (i : ℕ) :
    attrAt (clearAttrOp st i) i = none := by
  unfold attrAt clearAttrOp
  rw [findElem_updateElem_self (f := fun e => { e with blurStrength := none }) (fun e => rfl)]
  cases h : findElem st i <;> rfl

lemma attrAt_setAttrOp_self {st : DocSt} {i : ℕ} {e : Elem} (q : ℚ)
    (he : findElem st i = some e) :
    attrAt (setAttrOp st i q) i = some q := by
  unfold attrAt setAttrOp
  rw [findElem_updateElem_self (f := fun e => { e with blurStrength := some q }) (fun e => rfl), he]
  rfl

lemma classesAt_addClassOp_ne {st : DocSt} {j i : ℕ} {c : String} (hij : i ≠ j) :
    classesAt (addClassOp st j c) i = classesAt st i := by
  unfold classesAt addClassOp
  rw [findElem_updateElem_ne (f := fun e => { e with classes := classListAdd e.classes c }) (fun e => rfl) hij]

lemma classesAt_addClassOp_self {st : DocSt} {i : ℕ} {e : Elem} (c : String)
    (he : findElem st i = some e) :
    classesAt (addClassOp st i c) i = classListAdd e.classes c := by
  unfold classesAt addClassOp
  rw [findElem_updateElem_self (f := fun e => { e with classes := classListAdd e.classes c }) (fun e => rfl), he]
  rfl

lemma findElem_addClassOp_ne {st : DocSt} {j i : ℕ} {c : String} (hij : i ≠ j) :
    findElem (addClassOp st j c) i = findElem st i :=
  findElem_updateElem_ne (f := fun e => { e with classes := classListAdd e.classes c })
    (fun _ => rfl) hij

lemma findElem_setAttrOp_ne {st : DocSt} {j i : ℕ} {q : ℚ} (hij : i ≠ j) :
    findElem (setAttrOp st j q) i = findElem st i :=
  findElem_updateElem_ne (f := fun e => { e with blurStrength := some q })
    (fun _ => rfl) hij

lemma findElem_clearAttrOp_ne {st : DocSt} {j i : ℕ} (hij : i ≠ j) :
    findElem (clearAttrOp st j) i = findElem st i :=
  findElem_updateElem_ne (f := fun e => { e with blurStrength := none })
    (fun _ => rfl) hij

lemma findElem_addClassOp_self (st : DocSt) (i : ℕ) (c : String) :
    findElem (addClassOp st i c) i
      = (findElem st i).map (fun e => { e with classes := classListAdd e.classes c }) :=
  findElem_updateElem_self (f := fun e => { e with classes := classListAdd e.classes c })
    (fun _ => rfl)

lemma findElem_setAttrOp_self (st : DocSt) (i : ℕ) (q : ℚ) :
    findElem (setAttrOp st i q) i
      = (findElem st i).map (fun e => { e with blurStrength := some q }) :=
  findElem_updateElem_self (f := fun e => { e with blurStrength := some q })
    (fun _ => rfl)

/-! ## Lemmas about processElement and removeElement -/

lemma processElement_of_mem {st : DocSt} {i : ℕ} (h : i ∈ st.tracked) :
    processElement st i = st := by
  simp [processElement, h]

lemma tracked_processElement (st : DocSt) (j : ℕ) :
    (processElement st j).tracked
      = if j ∈ st.tracked then st.tracked else st.tracked ++ [j] := by
  by_cases h : j ∈ st.tracked
  · simp [processElement, h]
  · simp only [processElement, if_neg h]
    rfl

lemma mem_tracked_processElement {st : DocSt} {j i : ℕ} :
    i ∈ (processElement st j).tracked ↔ (i ∈ st.tracked ∨ i = j) := by
  rw [tracked_processElement]
  by_cases h : j ∈ st.tracked
  · simp only [if_pos h]
    constructor
    · exact Or.inl
    · rintro (hi | rfl)
      · exact hi
      · exact h
  · simp [if_neg h]

lemma findElem_processElement_ne {st : DocSt} {j i : ℕ} (hij : i ≠ j) :
    findElem (processElement st j) i = findElem st i := by
  unfold processElement
  split
  · rfl
  · show findElem (setAttrOp (addClassOp st j "relative") j _) i = _
    rw [findElem_setAttrOp_ne hij, findElem_addClassOp_ne hij]

lemma classesAt_processElement_ne {st : DocSt} {j i : ℕ} (hij : i ≠ j) :
    classesAt (processElement st j) i = classesAt st i := by
  unfold classesAt
  rw [findElem_processElement_ne hij]

lemma attrAt_processElement_ne {st : DocSt} {j i : ℕ} (hij : i ≠ j) :
    attrAt (processElement st j) i = attrAt st i := by
  unfold attrAt
  rw [findElem_processElement_ne hij]

lemma processElement_not_mem {st : DocSt} {i : ℕ} {e : Elem}
    (hnt : i ∉ st.tracked) (he : findElem st i = some e) :
    findElem (processElement st i) i
        = some { e with classes := classListAdd e.classes "relative",
                        blurStrength :=
                          some (computeStrength (classListAdd e.classes "relative")) }
      ∧ (processElement st i).tracked = st.tracked ++ [i] := by
  have h1 : findElem (addClassOp st i "relative") i
      = some { e with classes := classListAdd e.classes "relative" } := by
    rw [findElem_addClassOp_self, he]
    rfl
  have h2 : classesAt (addClassOp st i "relative") i = classListAdd e.classes "relative" :=
    classesAt_addClassOp_self _ he
  refine ⟨?_, ?_⟩
  · show findElem (processElement st i) i = _
    unfold processElement
    rw [if_neg hnt]
    show findElem (setAttrOp (addClassOp st i "relative") i _) i = _
    rw [findElem_setAttrOp_self, h1, h2]
    rfl
  · unfold processElement
    rw [if_neg hnt]
    rfl

lemma removeElement_not_mem {st : DocSt} {i : ℕ} (h : i ∉ st.tracked) :
    removeElement st i = (st, false) := by
  simp [removeElement, h]

lemma tracked_removeElement (st : DocSt) (j : ℕ) :
    ((removeElement st j).1).tracked
      = if j ∈ st.tracked then st.tracked.erase j else st.tracked := by
  by_cases h : j ∈ st.tracked <;> simp [removeElement, h]

lemma findElem_removeElement_ne {st : DocSt} {j i : ℕ} (hij : i ≠ j) :
    findElem (removeElement st j).1 i = findElem st i := by
  unfold removeElement
  split
  · show findElem (clearAttrOp st j) i = _
    rw [findElem_clearAttrOp_ne hij]
  · rfl

lemma classesAt_removeElement (st : DocSt) (j : ℕ) (i : ℕ) :
    classesAt (removeElement st j).1 i = classesAt st i := by
  unfold removeElement
  split
  · show classesAt (clearAttrOp st j) i = _
    exact classesAt_clearAttrOp st j i
  · rfl

lemma attrAt_removeElement_ne {st : DocSt} {j i : ℕ} (hij : i ≠ j) :
    attrAt (removeElement st j).1 i = attrAt st i := by
  unfold attrAt
  rw [findElem_removeElement_ne hij]

/-! ## Invariant plumbing -/

lemma foldl_preserve {α σ : Type} (f : σ → α → σ) (Q : σ → Prop) :
    ∀ (L : List α), (∀ j ∈ L, ∀ s, Q s → Q (f s j)) →
      ∀ s, Q s → Q (L.foldl f s) := by
  intro L
  induction L with
  | nil => intro _ s h; exact h
  | cons a t ih =>
    intro hstep s h
    exact ih (fun j hj s hQ => hstep j (List.mem_cons_of_mem _ hj) s hQ) _
      (hstep a (List.mem_cons_self _ _) s h)

lemma noBluredAnywhere_updateElem_ne {st : DocSt} {j i : ℕ} {f : Elem → Elem}
    (hf : ∀ e, (f e).eid = e.eid) (hij : i ≠ j)
    (h : noBluredAnywhere st i) : noBluredAnywhere (updateElem st j f) i := by
  intro e' he' heid
  obtain ⟨e, hmem, rfl⟩ := List.mem_map.mp he'
  by_cases hj : e.eid = j
  · exfalso
    rw [if_pos (by simpa using hj), hf] at heid
    exact hij (heid ▸ hj)
  · rw [if_neg (by simpa using hj)] at heid ⊢
    exact h e hmem heid

lemma noBluredAnywhere_updateElem_classes {st : DocSt} {i : ℕ} {f : Elem → Elem}
    (hf : ∀ e, (f e).eid = e.eid) (hc : ∀ e, (f e).classes = e.classes) (j : ℕ)
    (h : noBluredAnywhere st i) : noBluredAnywhere (updateElem st j f) i := by
  intro e' he' heid
  obtain ⟨e, hmem, rfl⟩ := List.mem_map.mp he'
  by_cases hj : e.eid = j
  · rw [if_pos (by simpa using hj)] at heid ⊢
    rw [hc]
    exact h e hmem (by rw [← hf e]; exact heid)
  · rw [if_neg (by simpa using hj)] at heid ⊢
    exact h e hmem heid

lemma hasBluredTok_classesAt_false {st : DocSt} {i : ℕ}
    (hnb : noBluredAnywhere st i) : hasBluredTok (classesAt st i) = false := by
  unfold classesAt
  cases h : findElem st i with
  | none => rfl
  | some e =>
    simp only [Option.map_some', Option.getD_some]
    exact hnb e (findElem_mem h) (findElem_eid h)

lemma noBluredAnywhere_addClassOp_ne {st : DocSt} {j i : ℕ} {c : String} (hij : i ≠ j)
    (h : noBluredAnywhere st i) : noBluredAnywhere (addClassOp st j c) i :=
  noBluredAnywhere_updateElem_ne
    (f := fun e => { e with classes := classListAdd e.classes c }) (fun _ => rfl) hij h

lemma noBluredAnywhere_setAttrOp {st : DocSt} (j : ℕ) (q : ℚ) {i : ℕ}
    (h : noBluredAnywhere st i) : noBluredAnywhere (setAttrOp st j q) i :=
  noBluredAnywhere_updateElem_classes
    (f := fun e => { e with blurStrength := some q }) (fun _ => rfl) (fun _ => rfl) j h

lemma noBluredAnywhere_clearAttrOp {st : DocSt} (j : ℕ) {i : ℕ}
    (h : noBluredAnywhere st i) : noBluredAnywhere (clearAttrOp st j) i :=
  noBluredAnywhere_updateElem_classes
    (f := fun e => { e with blurStrength := none }) (fun _ => rfl) (fun _ => rfl) j h

lemma noBluredAnywhere_processElement {st : DocSt} {j i : ℕ} (hij : i ≠ j)
    (h : noBluredAnywhere st i) : noBluredAnywhere (processElement st j) i := by
  unfold processElement
  split
  · exact h
  · intro e he heid
    exact noBluredAnywhere_setAttrOp j _ (noBluredAnywhere_addClassOp_ne hij h) e he heid

lemma noBluredAnywhere_removeElement {st : DocSt} {i : ℕ} (j : ℕ)
    (h : noBluredAnywhere st i) : noBluredAnywhere (removeElement st j).1 i := by
  unfold removeElement
  split
  · intro e he heid
    exact noBluredAnywhere_clearAttrOp j h e he heid
  · exact h

lemma isCircle_eq_true_iff (br : String) :
    isCircle br = true ↔
      (strContainsChar br '%' = true ∧ ∃ q, jsParseFloat br = some q ∧ 50 ≤ q) := by
  unfold isCircle
  cases hp : jsParseFloat br with
  | none => simp [hp]
  | some q => simp [hp, decide_eq_true_eq]

lemma mem_tracked_foldl_processElement {x : ℕ} (L : List ℕ) :
    ∀ s : DocSt, x ∈ s.tracked → x ∈ (L.foldl processElement s).tracked :=
  foldl_preserve processElement (fun s => x ∈ s.tracked) L
    (fun _ _ _ h => mem_tracked_processElement.mpr (Or.inl h))

lemma mem_tracked_processMutation {s : DocSt} {x : ℕ} {m : MutRec}
    (h : x ∈ s.tracked) : x ∈ (processMutation s m).tracked := by
  unfold processMutation
  have h1 : x ∈ (m.added.foldl
      (fun s a =>
        let su := if hasBluredTok (classesAt s a.nid) then processElement s a.nid else s
        let children := a.descendants.filter (fun d => hasBluredTok (classesAt su d))
        children.foldl processElement su) s).tracked := by
    refine foldl_preserve _ (fun s => x ∈ s.tracked) m.added (fun a _ s h => ?_) s h
    dsimp only
    apply mem_tracked_foldl_processElement
    split
    · exact mem_tracked_processElement.mpr (Or.inl h)
    · exact h
  cases m.attrClassTarget with
  | none => exact h1
  | some t =>
    simp only
    split
    · exact mem_tracked_processElement.mpr (Or.inl h1)
    · exact h1

lemma C1Inv_processElement_ne {s : DocSt} {i j : ℕ} (hij : i ≠ j)
    (h : i ∉ s.tracked ∧ noBluredAnywhere s i) :
    i ∉ (processElement s j).tracked ∧ noBluredAnywhere (processElement s j) i :=
  ⟨fun hm => (mem_tracked_processElement.mp hm).elim h.1 hij,
    noBluredAnywhere_processElement hij h.2⟩

lemma C1Inv_removeElement {s : DocSt} {i : ℕ} (j : ℕ)
    (h : i ∉ s.tracked ∧ noBluredAnywhere s i) :
    i ∉ (removeElement s j).1.tracked ∧ noBluredAnywhere (removeElement s j).1 i := by
  refine ⟨?_, noBluredAnywhere_removeElement j h.2⟩
  rw [tracked_removeElement]
  split
  · exact fun hm => h.1 (List.mem_of_mem_erase hm)
  · exact h.1

lemma C1Inv_processMutation {s : DocSt} {i : ℕ} {m : MutRec}
    (h : i ∉ s.tracked ∧ noBluredAnywhere s i) :
    i ∉ (processMutation s m).tracked ∧ noBluredAnywhere (processMutation s m) i := by
  unfold processMutation
  have hstep : ∀ (a : AddedNode) (s : DocSt),
      (i ∉ s.tracked ∧ noBluredAnywhere s i) →
      (i ∉ ((a.descendants.filter
          (fun d => hasBluredTok (classesAt
            (if hasBluredTok (classesAt s a.nid) then processElement s a.nid else s) d))).foldl
          processElement
          (if hasBluredTok (classesAt s a.nid) then processElement s a.nid else s)).tracked ∧
        noBluredAnywhere ((a.descendants.filter
          (fun d => hasBluredTok (classesAt
            (if hasBluredTok (classesAt s a.nid) then processElement s a.nid else s) d))).foldl
          processElement
          (if hasBluredTok (classesAt s a.nid) then processElement s a.nid else s)) i) := by
    intro a s hs
    have hsu : i ∉ (if hasBluredTok (classesAt s a.nid) then processElement s a.nid else s).tracked
        ∧ noBluredAnywhere
            (if hasBluredTok (classesAt s a.nid) then processElement s a.nid else s) i := by
      by_cases hn : a.nid = i
      · rw [hn, hasBluredTok_classesAt_false hs.2, if_neg (by simp)]
        exact hs
      · split
        · exact C1Inv_processElement_ne (fun he => hn he.symm) hs
        · exact hs
    refine foldl_preserve processElement
      (fun s => i ∉ s.tracked ∧ noBluredAnywhere s i) _ (fun d hd s2 h2 => ?_) _ hsu
    have hdi : d ≠ i := by
      intro hdieq
      have := (List.mem_filter.mp hd).2
      rw [hdieq, hasBluredTok_classesAt_false hsu.2] at this
      exact Bool.false_ne_true this
    exact C1Inv_processElement_ne (fun he => hdi he.symm) h2
  have h1 := foldl_preserve _
    (fun s => i ∉ s.tracked ∧ noBluredAnywhere s i) m.added
    (fun a _ s hs => hstep a s hs) s h
  cases m.attrClassTarget with
  | none => exact h1
  | some t =>
    simp only
    split
    · rename_i hc
      have hti : t ≠ i := by
        intro hteq
        rw [hteq, hasBluredTok_classesAt_false h1.2] at hc
        exact Bool.false_ne_true hc
      exact C1Inv_processElement_ne (fun he => hti he.symm) h1
    · exact h1

lemma mem_glass {st : DocSt} {j : ℕ}
    (hj : j ∈ (st.doc.filter selMatches).map Elem.eid) :
    ∃ e ∈ st.doc, selMatches e = true ∧ e.eid = j := by
  obtain ⟨e, he, rfl⟩ := List.mem_map.mp hj
  have h := List.mem_filter.mp he
  exact ⟨e, h.1, h.2, rfl⟩

lemma C1Inv_processAllElements {st : DocSt} {i : ℕ}
    (h : i ∉ st.tracked ∧ noBluredAnywhere st i) :
    i ∉ (processAllElements st).tracked ∧ noBluredAnywhere (processAllElements st) i := by
  have hrepr : processAllElements st
      = ((st.doc.filter selMatches).map Elem.eid).foldl processElement
          (st.tracked.foldl
            (fun s j => if hasBluredTok (classesAt s j) then s else (removeElement s j).1) st) :=
    rfl
  rw [hrepr]
  have h1 := foldl_preserve
    (fun s j => if hasBluredTok (classesAt s j) then s else (removeElement s j).1)
    (fun s => i ∉ s.tracked ∧ noBluredAnywhere s i) st.tracked
    (fun j _ s hs => by
      dsimp only
      split
      · exact hs
      · exact C1Inv_removeElement j hs) st h
  refine foldl_preserve processElement
    (fun s => i ∉ s.tracked ∧ noBluredAnywhere s i)
    ((st.doc.filter selMatches).map Elem.eid) (fun j hj s hs => ?_) _ h1
  have hji : j ≠ i := by
    intro hjeq
    obtain ⟨e, hmem, hsel, heid⟩ := mem_glass hj
    have := h.2 e hmem (by rw [heid, hjeq])
    rw [selMatches] at hsel
    rw [this] at hsel
    exact Bool.false_ne_true hsel
  exact C1Inv_processElement_ne (fun he => hji he.symm) hs

/-! ## Claim theorems -/

/-- C1 counterexample: the element classed xblured carries neither the base
marker token nor a suffixed marker token, yet the initial scan
(processAllElements) inserts it into the tracked set, because the code
matches "blured" as a substring. -/
theorem C1_counterexample :
    specQualifies ["xblured"] = false ∧ 0 ∈ (processAllElements c1St).tracked := by
  decide

/-- C1 (amended): for every element none of whose class tokens contains
"blured" as a substring, the tracked set never contains it: neither
reconcileAll (processAllElements) nor any observer callback run inserts it. -/
theorem C1_no_false_positives (st : DocSt) (i : ℕ) (muts : List MutRec)
    (hnt : i ∉ st.tracked) (hnb : noBluredAnywhere st i) :
    i ∉ (processAllElements st).tracked ∧ i ∉ (observerCallback st muts).tracked := by
  refine ⟨(C1Inv_processAllElements ⟨hnt, hnb⟩).1, ?_⟩
  exact (foldl_preserve processMutation
    (fun s => i ∉ s.tracked ∧ noBluredAnywhere s i) muts
    (fun m _ s hs => C1Inv_processMutation hs) st ⟨hnt, hnb⟩).1

/-- C1 witness: the amended invariant instantiated on one untracked element
with the unrelated class plain and a mutation batch naming it. -/
theorem C1_no_false_positives_witness :
    (3 ∉ c1WitSt.tracked) ∧ noBluredAnywhere c1WitSt 3 ∧
    (3 ∉ (processAllElements c1WitSt).tracked ∧
      3 ∉ (observerCallback c1WitSt demoMuts).tracked) :=
  ⟨by decide, by decide, C1_no_false_positives c1WitSt 3 demoMuts (by decide) (by decide)⟩

/-- C8: a mutation batch handled by the observer callback only grows the
tracked set: every element tracked before the callback is still tracked after
it, whatever the batch contains (class-removal mutations included); removal
happens only through reconcileAll. -/
theorem C8_observer_only_grows (st : DocSt) (muts : List MutRec) (x : ℕ)
    (hx : x ∈ st.tracked) : x ∈ (observerCallback st muts).tracked := by
  unfold observerCallback
  exact foldl_preserve processMutation (fun s => x ∈ s.tracked) muts
    (fun m _ s h => mem_tracked_processMutation h) st hx

/-- C8 witness: monotonicity instantiated on a tracked element and a batch
containing an added node and a class-attribute mutation. -/
theorem C8_observer_only_grows_witness :
    6 ∈ (observerCallback c8WitSt demoMuts).tracked :=
  C8_observer_only_grows c8WitSt demoMuts 6 (by decide)

lemma sweepAux_keep {i : ℕ} (L : List ℕ) (hL : i ∉ L) :
    ∀ s : DocSt, (i ∈ s.tracked ∧ s.tracked.Nodup ∧ noBluredAnywhere s i) →
      (i ∈ (L.foldl sweepStep s).tracked ∧ (L.foldl sweepStep s).tracked.Nodup ∧
        noBluredAnywhere (L.foldl sweepStep s) i) :=
  foldl_preserve sweepStep _ L (fun j hj s hs => by
    unfold sweepStep
    split
    · exact hs
    · have hij : i ≠ j := fun he => hL (he ▸ hj)
      refine ⟨?_, ?_, noBluredAnywhere_removeElement j hs.2.2⟩
      · rw [tracked_removeElement]
        split
        · exact (List.mem_erase_of_ne hij).mpr hs.1
        · exact hs.1
      · rw [tracked_removeElement]
        split
        · exact List.Nodup.erase _ hs.2.1
        · exact hs.2.1)

lemma sweepAux_gone {i : ℕ} (L : List ℕ) :
    ∀ s : DocSt, (i ∉ s.tracked ∧ attrAt s i = none ∧ noBluredAnywhere s i) →
      (i ∉ (L.foldl sweepStep s).tracked ∧ attrAt (L.foldl sweepStep s) i = none ∧
        noBluredAnywhere (L.foldl sweepStep s) i) :=
  foldl_preserve sweepStep _ L (fun j hj s hs => by
    unfold sweepStep
    split
    · exact hs
    · by_cases hij : i = j
      · rw [← hij, removeElement_not_mem hs.1]
        exact hs
      · refine ⟨?_, ?_, noBluredAnywhere_removeElement j hs.2.2⟩
        · rw [tracked_removeElement]
          split
          · exact fun hm => hs.1 (List.mem_of_mem_erase hm)
          · exact hs.1
        · rw [attrAt_removeElement_ne hij]
          exact hs.2.1)

lemma processAllElements_removes {st : DocSt} {i : ℕ}
    (hnd : st.tracked.Nodup) (hi : i ∈ st.tracked) (hnb : noBluredAnywhere st i) :
    i ∉ (processAllElements st).tracked ∧ attrAt (processAllElements st) i = none := by
  have hrepr : processAllElements st
      = ((st.doc.filter selMatches).map Elem.eid).foldl processElement
          (st.tracked.foldl sweepStep st) := rfl
  rw [hrepr]
  obtain ⟨l₁, l₂, hsplit⟩ := List.append_of_mem hi
  have hnd2 : (l₁ ++ i :: l₂).Nodup := hsplit ▸ hnd
  have hd := List.nodup_append.mp hnd2
  have hil1 : i ∉ l₁ := fun hm => hd.2.2 hm (List.mem_cons_self i l₂)
  have hsw : i ∉ (st.tracked.foldl sweepStep st).tracked
      ∧ attrAt (st.tracked.foldl sweepStep st) i = none
      ∧ noBluredAnywhere (st.tracked.foldl sweepStep st) i := by
    rw [hsplit, List.foldl_append, List.foldl_cons]
    have hA := sweepAux_keep l₁ hil1 st ⟨hi, hnd, hnb⟩
    have hBdef : sweepStep (l₁.foldl sweepStep st) i
        = (removeElement (l₁.foldl sweepStep st) i).1 := by
      show (if hasBluredTok (classesAt (l₁.foldl sweepStep st) i)
            then l₁.foldl sweepStep st
            else (removeElement (l₁.foldl sweepStep st) i).1)
          = (removeElement (l₁.foldl sweepStep st) i).1
      simp only [hasBluredTok_classesAt_false hA.2.2, Bool.false_eq_true, if_false]
    have hB : i ∉ (sweepStep (l₁.foldl sweepStep st) i).tracked
        ∧ attrAt (sweepStep (l₁.foldl sweepStep st) i) i = none
        ∧ noBluredAnywhere (sweepStep (l₁.foldl sweepStep st) i) i := by
      rw [hBdef]
      refine ⟨?_, ?_, noBluredAnywhere_removeElement i hA.2.2⟩
      · rw [tracked_removeElement, if_pos hA.1]
        exact List.Nodup.not_mem_erase hA.2.1
      · unfold removeElement
        rw [if_pos hA.1]
        exact attrAt_clearAttrOp_self _ i
    exact sweepAux_gone l₂ _ hB
  exact foldl_preserve processElement
    (fun s => i ∉ s.tracked ∧ attrAt s i = none)
    ((st.doc.filter selMatches).map Elem.eid)
    (fun j hj s hs => by
      have hji : j ≠ i := by
        intro hjeq
        obtain ⟨e, hmem, hsel, heid⟩ := mem_glass hj
        have hfalse := hnb e hmem (by rw [heid, hjeq])
        rw [selMatches, hfalse] at hsel
        exact Bool.false_ne_true hsel
      exact ⟨fun hm => (mem_tracked_processElement.mp hm).elim hs.1
               (fun he => hji he.symm),
             by rw [attrAt_processElement_ne (fun he => hji he.symm)]; exact hs.2⟩)
    _ ⟨hsw.1, hsw.2.1⟩

/-- C7 counterexample: a tracked element stripped down to the class xblured
carries no qualifying marker token, yet after reconcileAll it is still in the
tracked set with its attribute intact, because the removal sweep also matches
"blured" as a substring. -/
theorem C7_counterexample :
    specQualifies ["xblured"] = false ∧
    0 ∈ (processAllElements c7St).tracked ∧
    attrAt (processAllElements c7St) 0 = some 1 := by
  decide

/-- C7 (amended): removeElement is a no-op returning false when the element
is not tracked, and otherwise returns true, deletes the derived attribute and
removes the element from the set; consequently a tracked element stripped of
every class token containing "blured" as a substring is absent from the set
after the next reconcileAll, with its attribute removed. -/
theorem C7_remove_correctness (st : DocSt) (i : ℕ) :
    (i ∉ st.tracked → removeElement st i = (st, false)) ∧
    (i ∈ st.tracked → st.tracked.Nodup →
      (removeElement st i).2 = true ∧ attrAt (removeElement st i).1 i = none ∧
      i ∉ (removeElement st i).1.tracked) ∧
    (i ∈ st.tracked → st.tracked.Nodup → noBluredAnywhere st i →
      i ∉ (processAllElements st).tracked ∧ attrAt (processAllElements st) i = none) := by
  refine ⟨fun h => removeElement_not_mem h, fun hm hnd => ⟨?_, ?_, ?_⟩,
    fun hm hnd hnb => processAllElements_removes hnd hm hnb⟩
  · unfold removeElement
    rw [if_pos hm]
  · unfold removeElement
    rw [if_pos hm]
    exact attrAt_clearAttrOp_self st i
  · unfold removeElement
    rw [if_pos hm]
    show i ∉ st.tracked.erase i
    exact List.Nodup.not_mem_erase hnd

/-- C7 witness: the amended removal correctness instantiated on a tracked
element whose classes were all replaced by the unrelated token stripped. -/
theorem C7_remove_correctness_witness :
    (4 ∈ c7WitSt.tracked) ∧ c7WitSt.tracked.Nodup ∧ noBluredAnywhere c7WitSt 4 ∧
    (4 ∉ (processAllElements c7WitSt).tracked ∧
      attrAt (processAllElements c7WitSt) 4 = none) :=
  ⟨by decide, by decide, by decide,
    (C7_remove_correctness c7WitSt 4).2.2 (by decide) (by decide) (by decide)⟩

lemma find?_classListAdd_relative (cs : List String) :
    (classListAdd cs "relative").find? (fun c => jsStartsWith c "blured-")
      = cs.find? (fun c => jsStartsWith c "blured-") := by
  unfold classListAdd
  split
  · rfl
  · rw [List.find?_append]
    have h2 : (["relative"] : List String).find? (fun c => jsStartsWith c "blured-")
        = none := by decide
    rw [h2]
    cases h : cs.find? (fun c => jsStartsWith c "blured-") <;> rfl

lemma strDrop_bluredDash (v : String) : strDrop ("blured-" ++ v) 7 = v := by
  obtain ⟨d⟩ := v
  rfl

lemma dropWhile_eq_self_of_all {l : List Char} (h : ∀ c ∈ l, isWsCh c = false) :
    l.dropWhile isWsCh = l := by
  cases l with
  | nil => rfl
  | cons a t =>
    rw [List.dropWhile_cons, h a (List.mem_cons_self a t)]
    simp

lemma jsTrim_eq_of_noWs {v : String} (h : ∀ c ∈ v.toList, isWsCh c = false) :
    jsTrim v = v.toList := by
  unfold jsTrim
  rw [dropWhile_eq_self_of_all h,
      dropWhile_eq_self_of_all (fun c hc => h c (List.mem_reverse.mp hc)),
      List.reverse_reverse]

lemma toList_ne_nil {v : String} (hne : v ≠ "") : v.toList ≠ [] := by
  intro h
  apply hne
  apply String.toList_inj.mp
  rw [h]
  rfl

lemma jsParseFloat_of_jsNumber {v : String} {q : ℚ}
    (hws : ∀ c ∈ v.toList, isWsCh c = false) (hne : v ≠ "")
    (hn : jsNumber v = some q) : jsParseFloat v = some q := by
  have htl := toList_ne_nil hne
  unfold jsNumber at hn
  rw [jsTrim_eq_of_noWs hws, if_neg htl] at hn
  unfold jsParseFloat
  rw [dropWhile_eq_self_of_all hws]
  cases hp : parseSigned v.toList with
  | none =>
    rw [hp] at hn
    exact absurd hn (by simp)
  | some p =>
    obtain ⟨q2, rest⟩ := p
    rw [hp] at hn
    cases rest with
    | nil =>
      change some q2 = some q at hn
      simpa using hn
    | cons a t =>
      change (none : Option ℚ) = some q at hn
      exact absurd hn (by simp)

lemma jsIncludes_bluredDash_append (v : String) :
    jsIncludes ("blured-" ++ v) "blured" = true := by
  have hlist : ("blured-" ++ v).toList
      = 'b' :: 'l' :: 'u' :: 'r' :: 'e' :: 'd' :: '-' :: v.toList := by
    obtain ⟨d⟩ := v
    rfl
  unfold jsIncludes
  rw [hlist]
  show hasSub ("blured".toList) _ = true
  rw [hasSub]
  rw [show listHasPre ("blured".toList)
      ('b' :: 'l' :: 'u' :: 'r' :: 'e' :: 'd' :: '-' :: v.toList) = true from rfl]
  exact Bool.true_or _

lemma fold_pe_attr_stable {i : ℕ} {w : Option ℚ} (L : List ℕ) :
    ∀ s : DocSt, i ∈ s.tracked ∧ attrAt s i = w →
      i ∈ (L.foldl processElement s).tracked ∧ attrAt (L.foldl processElement s) i = w :=
  foldl_preserve processElement _ L (fun j hj s hs => by
    by_cases hij : j = i
    · rw [hij, processElement_of_mem hs.1]
      exact hs
    · exact ⟨mem_tracked_processElement.mpr (Or.inl hs.1),
        by rw [attrAt_processElement_ne (fun he => hij he.symm)]; exact hs.2⟩)

lemma fold_pe_records {i : ℕ} {e : Elem} (L : List ℕ) :
    i ∈ L → ∀ s : DocSt, findElem s i = some e → i ∉ s.tracked →
      attrAt (L.foldl processElement s) i
        = some (computeStrength (classListAdd e.classes "relative")) := by
  induction L with
  | nil => exact fun h => absurd h (List.not_mem_nil i)
  | cons j t ih =>
    intro hiL s hfe hnt
    rw [List.foldl_cons]
    by_cases hj : j = i
    · subst hj
      obtain ⟨h1, _⟩ := processElement_not_mem hnt hfe
      have hattr : attrAt (processElement s j) j
          = some (computeStrength (classListAdd e.classes "relative")) := by
        unfold attrAt
        rw [h1]
        rfl
      have hmem : j ∈ (processElement s j).tracked :=
        mem_tracked_processElement.mpr (Or.inr rfl)
      exact (fold_pe_attr_stable t _ ⟨hmem, hattr⟩).2
    · have hiT : i ∈ t := by
        rcases List.mem_cons.mp hiL with h | h
        · exact absurd h.symm hj
        · exact h
      exact ih hiT _
        (by rw [findElem_processElement_ne (fun he => hj he.symm)]; exact hfe)
        (fun hm => (mem_tracked_processElement.mp hm).elim hnt (fun he => hj he.symm))

lemma processAll_records {st : DocSt} {i : ℕ} {e : Elem}
    (he : findElem st i = some e) (hnt : i ∉ st.tracked) (hsel : selMatches e = true) :
    attrAt (processAllElements st) i
      = some (computeStrength (classListAdd e.classes "relative")) := by
  have hrepr : processAllElements st
      = ((st.doc.filter selMatches).map Elem.eid).foldl processElement
          (st.tracked.foldl sweepStep st) := rfl
  rw [hrepr]
  have hQ1 : findElem (st.tracked.foldl sweepStep st) i = some e
      ∧ i ∉ (st.tracked.foldl sweepStep st).tracked := by
    refine foldl_preserve sweepStep
      (fun s => findElem s i = some e ∧ i ∉ s.tracked) st.tracked
      (fun j hj s hs => ?_) st ⟨he, hnt⟩
    have hji : i ≠ j := fun heq => hnt (heq ▸ hj)
    unfold sweepStep
    split
    · exact hs
    · refine ⟨by rw [findElem_removeElement_ne hji]; exact hs.1, ?_⟩
      rw [tracked_removeElement]
      split
      · exact fun hm => hs.2 (List.mem_of_mem_erase hm)
      · exact hs.2
  have hig : i ∈ (st.doc.filter selMatches).map Elem.eid :=
    List.mem_map.mpr ⟨e, List.mem_filter.mpr ⟨findElem_mem he, hsel⟩, findElem_eid he⟩
  exact fold_pe_records _ hig _ hQ1.1 hQ1.2

lemma computeStrength_eq_of_find {cs : List String} {cls : String}
    (hfind : cs.find? (fun c => jsStartsWith c "blured-") = some cls) :
    computeStrength cs
      = (if (jsNumber (strDrop cls 7)).isSome && !(jsTrim (strDrop cls 7)).isEmpty
         then (jsParseFloat (strDrop cls 7)).getD config.defaultBlurStrength
         else config.defaultBlurStrength) := by
  unfold computeStrength
  rw [hfind]

lemma computeStrength_eq_default_of_none {cs : List String}
    (hfind : cs.find? (fun c => jsStartsWith c "blured-") = none) :
    computeStrength cs = config.defaultBlurStrength := by
  unfold computeStrength
  rw [hfind]

/-- C2 counterexample: an element already tracked with recorded strength 2
carries the marker blured-7.5 when reconcileAll runs, its suffix 7.5 is a
non-empty numeric literal, yet the recorded strength after reconcileAll is
still 2 and not parseFloat of 7.5 (which is 15/2): strength is fixed at first
capture and the claim's unrestricted quantification fails. -/
theorem C2_counterexample :
    jsStartsWith "blured-7.5" "blured-" = true ∧
    (jsNumber "7.5").isSome = true ∧
    jsTrim "7.5" ≠ [] ∧
    0 ∈ c2St.tracked ∧
    attrAt (processAllElements c2St) 0 = some 2 ∧
    jsParseFloat "7.5" = some (15 / 2) ∧
    (15 / 2 : ℚ) ≠ 2 := by
  refine ⟨by decide, by with_unfolding_all decide, by decide, by decide, by decide,
    by with_unfolding_all rfl, by norm_num⟩

/-- C2 (amended): for every element carrying the qualifying marker and not
yet tracked when reconcileAll (processAllElements) runs, the recorded
strength is: parseFloat of v when the first class token starting with
blured- has a whitespace-free, non-empty suffix v accepted by Number; the
default strength 1 when the suffix is rejected by Number or trims to
nothing; and the default strength 1 when the element carries only the bare
marker with no suffixed token. -/
theorem C2_strength_parsing (st : DocSt) (i : ℕ) (e : Elem)
    (he : findElem st i = some e) (hnt : i ∉ st.tracked) :
    (∀ v q, e.classes.find? (fun c => jsStartsWith c "blured-")
        = some ("blured-" ++ v) →
      (∀ ch ∈ v.toList, isWsCh ch = false) → v ≠ "" → jsNumber v = some q →
      jsParseFloat v = some q ∧ attrAt (processAllElements st) i = some q) ∧
    (∀ v, e.classes.find? (fun c => jsStartsWith c "blured-")
        = some ("blured-" ++ v) →
      (jsNumber v = none ∨ jsTrim v = []) →
      attrAt (processAllElements st) i = some config.defaultBlurStrength) ∧
    (e.classes.find? (fun c => jsStartsWith c "blured-") = none →
      "blured" ∈ e.classes →
      attrAt (processAllElements st) i = some config.defaultBlurStrength) := by
  refine ⟨?_, ?_, ?_⟩
  · intro v q hfind hws hne hn
    have hpf := jsParseFloat_of_jsNumber hws hne hn
    have hsel : selMatches e = true := by
      unfold selMatches hasBluredTok
      rw [List.any_eq_true]
      exact ⟨_, List.mem_of_find?_eq_some hfind, jsIncludes_bluredDash_append v⟩
    refine ⟨hpf, ?_⟩
    rw [processAll_records he hnt hsel,
        computeStrength_eq_of_find (by rw [find?_classListAdd_relative]; exact hfind),
        strDrop_bluredDash]
    have hemp : (jsTrim v).isEmpty = false := by
      rw [jsTrim_eq_of_noWs hws]
      cases hv : v.toList with
      | nil => exact absurd hv (toList_ne_nil hne)
      | cons a t => rfl
    rw [hn, hemp, hpf]
    rfl
  · intro v hfind hbad
    have hsel : selMatches e = true := by
      unfold selMatches hasBluredTok
      rw [List.any_eq_true]
      exact ⟨_, List.mem_of_find?_eq_some hfind, jsIncludes_bluredDash_append v⟩
    rw [processAll_records he hnt hsel,
        computeStrength_eq_of_find (by rw [find?_classListAdd_relative]; exact hfind),
        strDrop_bluredDash]
    rcases hbad with hn | ht
    · rw [hn]
      rfl
    · simp [ht]
  · intro hfind hbare
    have hsel : selMatches e = true := by
      unfold selMatches hasBluredTok
      rw [List.any_eq_true]
      exact ⟨"blured", hbare, by decide⟩
    rw [processAll_records he hnt hsel,
        computeStrength_eq_default_of_none
          (by rw [find?_classListAdd_relative]; exact hfind)]

/-- C2 witness: the amended strength recording instantiated on an untracked
element classed blured-7.5, recording 15/2 at reconcileAll. -/
theorem C2_strength_parsing_witness :
    (findElem c2WitSt 5
        = some { eid := 5, classes := ["blured-7.5"], blurStrength := none }) ∧
    (5 ∉ c2WitSt.tracked) ∧
    ((["blured-7.5"] : List String).find? (fun c => jsStartsWith c "blured-")
        = some ("blured-" ++ "7.5")) ∧
    (jsNumber "7.5" = some (15 / 2)) ∧
    (jsParseFloat "7.5" = some (15 / 2) ∧
      attrAt (processAllElements c2WitSt) 5 = some (15 / 2)) :=
  ⟨by decide, by decide, by decide, by with_unfolding_all rfl,
    (C2_strength_parsing c2WitSt 5
        { eid := 5, classes := ["blured-7.5"], blurStrength := none }
        (by decide) (by decide)).1 "7.5" (15 / 2)
      (by decide) (by decide) (by decide) (by with_unfolding_all rfl)⟩

/-- C4: in render, the device-space box of a region is left/top equal to the
floor of the canvas-relative coordinate times the scale minus 1, and
width/height equal to the ceiling of the extent times the scale plus 2; in
particular the rectangle left 100, top 50, width 40, height 20 at scale 1/2
yields left 49, top 24, width 22, height 12. -/
theorem C4_scaled_box_geometry :
    (∀ rectLeft canvasLeft rectTop canvasTop w h scale : ℚ,
        scaledLeft rectLeft canvasLeft scale = ⌊(rectLeft - canvasLeft) * scale⌋ - 1 ∧
        scaledTop rectTop canvasTop scale = ⌊(rectTop - canvasTop) * scale⌋ - 1 ∧
        scaledWidth w scale = ⌈w * scale⌉ + 2 ∧
        scaledHeight h scale = ⌈h * scale⌉ + 2) ∧
    (scaledLeft 100 0 (1 / 2) = 49 ∧ scaledTop 50 0 (1 / 2) = 24 ∧
      scaledWidth 40 (1 / 2) = 22 ∧ scaledHeight 20 (1 / 2) = 12) := by
  constructor
  · intro rectLeft canvasLeft rectTop canvasTop w h scale
    exact ⟨rfl, rfl, rfl, rfl⟩
  · refine ⟨?_, ?_, ?_, ?_⟩ <;>
      norm_num [scaledLeft, scaledTop, scaledWidth, scaledHeight, buffer]

/-- C5: the kernel receives the circle discriminator (shape w component 0,
with the z component the half-width, doubling as the radius) exactly when the
computed border-radius string contains a percent sign and parses to at least
50; otherwise both half-extents are populated and the corner-radius uniform
is the parsed radius times the resolution scale. -/
theorem C5_shape_discriminator (br : String) (cx cy sw sh scale : ℚ) (hsh : sh ≠ 0) :
    ((shapeUniform br cx cy sw sh).2.2.2 = 0 ↔
      (strContainsChar br '%' = true ∧ ∃ q, jsParseFloat br = some q ∧ 50 ≤ q)) ∧
    ((shapeUniform br cx cy sw sh).2.2.1 = sw / 2) ∧
    (isCircle br = false →
      (shapeUniform br cx cy sw sh).2.2.2 = sh / 2 ∧
      ∀ q, jsParseFloat br = some q →
        borderRadiusUniform br scale = some (q * scale)) := by
  refine ⟨?_, ?_, ?_⟩
  · rw [← isCircle_eq_true_iff]
    unfold shapeUniform
    cases hc : isCircle br with
    | true => simp
    | false =>
      simp only [Bool.false_eq_true, if_false, iff_false]
      intro h
      rcases div_eq_zero_iff.mp h with h0 | h2
      · exact hsh h0
      · norm_num at h2
  · unfold shapeUniform
    simp
  · intro hc
    refine ⟨by simp [shapeUniform, hc], fun q hq => ?_⟩
    unfold borderRadiusUniform
    rw [hq]
    rfl

/-- C5 witness: the shape facts instantiated at the computed border-radius
string 50 percent, box 10 by 8 at scale 1/2. -/
theorem C5_shape_discriminator_witness :
    ((8 : ℚ) ≠ 0) ∧
    (((shapeUniform "50%" 1 2 10 8).2.2.2 = 0 ↔
        (strContainsChar "50%" '%' = true ∧ ∃ q, jsParseFloat "50%" = some q ∧ 50 ≤ q)) ∧
      ((shapeUniform "50%" 1 2 10 8).2.2.1 = 10 / 2) ∧
      (isCircle "50%" = false →
        (shapeUniform "50%" 1 2 10 8).2.2.2 = 8 / 2 ∧
        ∀ q, jsParseFloat "50%" = some q →
          borderRadiusUniform "50%" (1 / 2) = some (q * (1 / 2)))) :=
  ⟨by norm_num, C5_shape_discriminator "50%" 1 2 10 8 (1 / 2) (by norm_num)⟩

/-- C10: render re-parses the stored blur-strength attribute every frame and
passes it to the kernel only when it is a nonzero number; a missing,
non-numeric, or zero-parsing attribute (such as the stored strength of an
element classed blured-0) yields the default strength 1 instead. -/
theorem C10_frame_strength :
    (∀ a : Option String, jsParseFloat (a.getD "") = none →
        renderBlurStrengthStr a = config.defaultBlurStrength) ∧
    (∀ a : Option String, jsParseFloat (a.getD "") = some 0 →
        renderBlurStrengthStr a = config.defaultBlurStrength) ∧
    (∀ (a : Option String) (q : ℚ), jsParseFloat (a.getD "") = some q → q ≠ 0 →
        renderBlurStrengthStr a = q) ∧
    (renderBlurStrength none = config.defaultBlurStrength) ∧
    (attrAt (processElement blured0St 0) 0 = some 0 ∧
      frameStrengthAt (processElement blured0St 0) 0 = config.defaultBlurStrength) := by
  refine ⟨?_, ?_, ?_, rfl, ?_, ?_⟩
  · intro a h
    unfold renderBlurStrengthStr
    rw [h]
  · intro a h
    unfold renderBlurStrengthStr
    rw [h]
    rfl
  · intro a q h hq
    unfold renderBlurStrengthStr
    rw [h]
    exact if_neg hq
  · with_unfolding_all rfl
  · with_unfolding_all rfl

/-- C6: processElement is idempotent: on an untracked element the first call
inserts exactly one tracked entry and records the derived strength; a second
call is a no-op even after an arbitrary in-between change of the element's
class list, and the stored attribute stays the one computed first. -/
theorem C6_add_idempotent (st : DocSt) (i : ℕ) (f : List String → List String)
    (hnt : i ∉ st.tracked) :
    processElement (updateElem (processElement st i) i
        (fun e => { e with classes := f e.classes })) i
      = updateElem (processElement st i) i (fun e => { e with classes := f e.classes }) ∧
    ((processElement st i).tracked).count i = 1 ∧
    attrAt (updateElem (processElement st i) i
        (fun e => { e with classes := f e.classes })) i
      = attrAt (processElement st i) i := by
  have hmem : i ∈ (processElement st i).tracked :=
    mem_tracked_processElement.mpr (Or.inr rfl)
  refine ⟨processElement_of_mem hmem, ?_, ?_⟩
  · rw [tracked_processElement, if_neg hnt, List.count_append]
    simp [List.count_eq_zero.mpr hnt]
  · unfold attrAt
    rw [findElem_updateElem_self
      (f := fun e => { e with classes := f e.classes }) (fun _ => rfl)]
    cases h : findElem (processElement st i) i <;> rfl

/-- C6 witness: idempotence instantiated on one untracked element classed
blured-2 whose suffix class is rewritten to blured-9 between the calls. -/
theorem C6_add_idempotent_witness :
    (0 ∉ c6St.tracked) ∧
    (processElement (updateElem (processElement c6St 0) 0
        (fun e => { e with classes := ["blured-9"] }))  0
      = updateElem (processElement c6St 0) 0 (fun e => { e with classes := ["blured-9"] }) ∧
    ((processElement c6St 0).tracked).count 0 = 1 ∧
    attrAt (updateElem (processElement c6St 0) 0
        (fun e => { e with classes := ["blured-9"] })) 0
      = attrAt (processElement c6St 0) 0) :=
  ⟨by decide, C6_add_idempotent c6St 0 (fun _ => ["blured-9"]) (by decide)⟩

/-- C9: tracking a not-yet-tracked element additionally adds the class token
"relative" to its class list; beyond that and the documented effects
(attribute write, set insertion) no element state changes, and no other
element changes at all. -/
theorem C9_relative_class_frame_effect (st : DocSt) (i : ℕ) (e : Elem)
    (he : findElem st i = some e) (hnt : i ∉ st.tracked) :
    findElem (processElement st i) i
        = some { e with classes := classListAdd e.classes "relative",
                        blurStrength :=
                          some (computeStrength (classListAdd e.classes "relative")) } ∧
    (processElement st i).tracked = st.tracked ++ [i] ∧
    (∀ j, j ≠ i → findElem (processElement st i) j = findElem st j) := by
  obtain ⟨h1, h2⟩ := processElement_not_mem hnt he
  exact ⟨h1, h2, fun j hj => findElem_processElement_ne hj⟩

/-- C9 witness: the frame effect instantiated on one untracked element
classed blured-3. -/
theorem C9_relative_class_frame_effect_witness :
    (findElem c9St 7 = some { eid := 7, classes := ["blured-3"], blurStrength := none }) ∧
    (7 ∉ c9St.tracked) ∧
    (findElem (processElement c9St 7) 7
        = some { eid := 7,
                 classes := classListAdd ["blured-3"] "relative",
                 blurStrength :=
                   some (computeStrength (classListAdd ["blured-3"] "relative")) } ∧
      (processElement c9St 7).tracked = c9St.tracked ++ [7] ∧
      (∀ j, j ≠ 7 → findElem (processElement c9St 7) j = findElem c9St j)) :=
  ⟨by decide, by decide,
    C9_relative_class_frame_effect c9St 7
      { eid := 7, classes := ["blured-3"], blurStrength := none } (by decide) (by decide)⟩

/-- C3: for every blur strength s greater than 0 and every non-discarded
pixel, if all texture samples return the same colour c then the kernel
output is exactly c: the gaussian weights with sigma s/3, summed over the
integer offsets of the loop that pass the radius-squared cutoff, form a
positive total, and the accumulated weighted colour divided by that total is
c (no net energy gain or loss). -/
theorem C3_kernel_normalization (shape : ℝ × ℝ × ℝ × ℝ) (px py br W H s : ℝ)
    (c : Fin 4 → ℝ) (hs : 0 < s) (hd : fragDistance shape px py br ≤ 0) :
    0 < totalWeight s W H ∧ fragMainConst shape px py br W H s c = some c := by
  have hmem : ((0, 0) : ℤ × ℤ) ∈ blurOffsets s := by
    unfold blurOffsets
    rw [Finset.mem_filter]
    constructor
    · rw [Finset.mem_product]
      constructor <;> simp [config]
    · push_cast
      simpa using mul_self_nonneg s
  have hwpos : ∀ p : ℤ × ℤ, 0 < sampleWeight s W H p := by
    intro p
    unfold sampleWeight gaussian
    apply div_pos (Real.exp_pos _)
    apply mul_pos
    · apply Real.sqrt_pos.mpr
      norm_num
    · linarith
  have htpos : 0 < totalWeight s W H := by
    unfold totalWeight
    exact Finset.sum_pos (fun p _ => hwpos p) ⟨(0, 0), hmem⟩
  refine ⟨htpos, ?_⟩
  unfold fragMainConst
  rw [if_neg (not_lt.mpr hd)]
  congr 1
  funext ch
  unfold blurredConst
  rw [← Finset.sum_mul]
  rw [show (∑ p ∈ blurOffsets s, sampleWeight s W H p) = totalWeight s W H from rfl]
  exact mul_div_cancel_left₀ (c ch) htpos.ne'

/-- C3 witness: kernel normalization instantiated at strength 1, a circular
shape of radius 5 sampled at its centre pixel, resolution 100 by 100, and
the uniform colour one half on all channels. -/
theorem C3_kernel_normalization_witness :
    (0 : ℝ) < 1 ∧ fragDistance (0, 0, 5, 0) 0 0 0 ≤ 0 ∧
    (0 < totalWeight 1 100 100 ∧
      fragMainConst (0, 0, 5, 0) 0 0 0 100 100 1 (fun _ => 1 / 2)
        = some (fun _ => 1 / 2)) := by
  have hd : fragDistance ((0 : ℝ), (0 : ℝ), (5 : ℝ), (0 : ℝ)) 0 0 0 ≤ 0 := by
    unfold fragDistance
    norm_num [Real.sqrt_zero]
  exact ⟨one_pos, hd,
    C3_kernel_normalization (0, 0, 5, 0) 0 0 0 100 100 1 (fun _ => 1 / 2) one_pos hd⟩

/-- C10 witness: the frame strength read-back instantiated at a non-numeric
attribute, a zero attribute and the attribute 7.5. -/
theorem C10_frame_strength_witness :
    renderBlurStrengthStr (some "abc") = config.defaultBlurStrength ∧
    renderBlurStrengthStr (some "0") = config.defaultBlurStrength ∧
    renderBlurStrengthStr (some "7.5") = 15 / 2 :=
  ⟨C10_frame_strength.1 (some "abc") (by with_unfolding_all rfl),
   C10_frame_strength.2.1 (some "0") (by with_unfolding_all rfl),
   C10_frame_strength.2.2.1 (some "7.5") (15 / 2) (by with_unfolding_all rfl)
     (by norm_num)⟩

end FivemGlsl
